import Mathlib

/-!
Verification of the `prefixed` logrus text formatter (`formatter.go`).

The Go source is shallowly embedded below.  Go values of type
`interface{}` that can appear in `logrus.Fields` are modelled by `Value`:
a string, an error (carrying the text of its `Error()` method), or any
other value carried together with its default `fmt` textual conversion
(the `%v` and `%+v` verbs agree on strings and errors, and for every
other value the model carries the rendered text itself).

Go maps (`logrus.Fields = map[string]interface{}`) are modelled as
association lists paired, where a theorem needs it, with an explicit
iteration order: the Go language specification leaves the order of a
`for k := range m` loop unspecified, so the order in which `Format`
enumerates the field keys is an extra input of the embedding, constrained
to be a permutation of the stored keys.  The association list itself
records the caller insertion order.

Byte counts (`len` in Go, the return value of `fmt.Fprintf`) are modelled
by `goLen`, the UTF-8 byte length of a string.
-/

namespace Prefixed

/-- Model of a Go `interface{}` value stored in `logrus.Fields`. -/
inductive Value where
  | str : String → Value
  | err : String → Value
  | other : String → Value
deriving DecidableEq, Repr

/-- Model of `logrus.Fields`: an association list in insertion order. -/
abbrev Fields := List (String × Value)

/-- Model of a Go `time.Time`: all the formatter does with it is call
`Format` on a layout string, so the model is that function. -/
structure GoTime where
  render : String → String

/-- Model of the `logrus.Level` enumeration. -/
inductive Level where
  | panic | fatal | error | warn | info | debug
deriving DecidableEq, Repr

/-- Model of `logrus.Level.String()`. -/
def Level.toGoString : Level → String
  | .panic => "panic"
  | .fatal => "fatal"
  | .error => "error"
  | .warn => "warning"
  | .info => "info"
  | .debug => "debug"

/-- Model of a `logrus.Entry` (the fields `Format` reads). -/
structure Entry where
  data : Fields
  time : GoTime
  level : Level
  message : String

/-- Model of the `TextFormatter` configuration struct. -/
structure TextFormatter where
  forceColors : Bool := false
  disableColors : Bool := false
  disableTimestamp : Bool := false
  shortTimestamp : Bool := false
  disableSorting : Bool := false
  indentMultilineMessage : Bool := false
  timestampFormat : String := ""
  spacePadding : Int := 0

/-- Process-wide state and runtime inputs read by the formatter:
the cached `isTerminal` flag, whether `runtime.GOOS == "windows"`,
the value of `miniTS()` at the time of the call, and the result of
`runtime.Caller(6)` used for the Debug diagnostic. -/
structure Env where
  isTerminal : Bool := false
  goosWindows : Bool := false
  miniTS : Nat := 0
  callerName : String := ""
  callerFile : String := ""
  callerLine : Nat := 0

/-- UTF-8 byte length of a list of characters, as Go `len` counts a string. -/
def byteLenChars : List Char → Nat
  | [] => 0
  | c :: r => c.utf8Size + byteLenChars r

/-- Go `len(s)` for a string: its UTF-8 byte length. -/
def goLen (s : String) : Nat := byteLenChars s.data

/-- The decimal digit character for `k % 10`. -/
def decDigit (k : Nat) : Char :=
  if k = 0 then '0' else if k = 1 then '1' else if k = 2 then '2'
  else if k = 3 then '3' else if k = 4 then '4' else if k = 5 then '5'
  else if k = 6 then '6' else if k = 7 then '7' else if k = 8 then '8' else '9'

/-- Decimal digits of a natural number (model of Go `%d` on a non-negative int). -/
def natDigits (n : Nat) : List Char :=
  if _h : n < 10 then [decDigit n]
  else natDigits (n / 10) ++ [decDigit (n % 10)]
decreasing_by exact Nat.div_lt_self (by omega) (by omega)

/-- Decimal rendering of a natural number. -/
def natToStr (n : Nat) : String := String.mk (natDigits n)

/-- Model of the Go `fmt` verb `%+5s`: right-align to a minimum width of 5. -/
def padLeft5 (s : String) : String :=
  if s.length < 5 then String.mk (List.replicate (5 - s.length) ' ') ++ s else s

/-- Model of the Go `fmt` verb `%04d`: zero-pad to a minimum width of 4. -/
def pad04 (n : Nat) : String :=
  let s := natToStr n
  if s.length < 4 then String.mk (List.replicate (4 - s.length) '0') ++ s else s

/-- Model of Go `strings.ToUpper` for the ASCII level names. -/
def goToUpper (s : String) : String := String.mk (s.data.map Char.toUpper)

/-- Model of Go `unicode.IsSpace` on the characters `strings.TrimSpace` trims. -/
def goIsSpace (c : Char) : Bool :=
  c = ' ' || c = '\t' || c = '\n' || c = '\x0b' || c = '\x0c' || c = '\r' ||
  c = '\x85' || c = '\xa0'

/-- Model of Go `strings.TrimSpace`: drop whitespace from both ends. -/
def goTrimSpace (s : String) : String :=
  String.mk (((s.data.dropWhile goIsSpace).reverse.dropWhile goIsSpace).reverse)

/-- The per-character condition of `needsQuoting` in the source: an ASCII
letter, an ASCII digit, `-`, or `.`.  (Also the spec wording of §4.1.) -/
def specNoQuote (c : Char) : Prop :=
  ('a' ≤ c ∧ c ≤ 'z') ∨ ('A' ≤ c ∧ c ≤ 'Z') ∨ ('0' ≤ c ∧ c ≤ '9') ∨ c = '-' ∨ c = '.'

instance (c : Char) : Decidable (specNoQuote c) := by
  unfold specNoQuote; infer_instance

/-- Source `needsQuoting` (formatter.go:190).  Despite its name it returns
`true` exactly when every rune of `text` is an ASCII letter, digit, `-` or
`.` — the source returns `false` as soon as one rune falls outside that
set, and `true` otherwise; `appendKeyValue` writes the value unquoted when
this function returns `true`. -/
def needsQuoting (text : String) : Bool :=
  text.data.all fun ch => decide (specNoQuote ch)

/-- Lower-case hexadecimal digit. -/
def hexDigit (k : Nat) : Char :=
  if k < 10 then decDigit k
  else if k = 10 then 'a' else if k = 11 then 'b' else if k = 12 then 'c'
  else if k = 13 then 'd' else if k = 14 then 'e' else 'f'

/-- Escape of one character inside a Go `%q` double-quoted literal
(model of `strconv.Quote`): `"` and `\` are backslash-escaped, the named
control escapes are used where they exist, other control bytes become
`\xhh`, and printable characters stand for themselves. -/
def goEscapeChar (c : Char) : List Char :=
  if c = '"' then ['\\', '"']
  else if c = '\\' then ['\\', '\\']
  else if c = '\x07' then ['\\', 'a']
  else if c = '\x08' then ['\\', 'b']
  else if c = '\x0c' then ['\\', 'f']
  else if c = '\n' then ['\\', 'n']
  else if c = '\r' then ['\\', 'r']
  else if c = '\t' then ['\\', 't']
  else if c = '\x0b' then ['\\', 'v']
  else if c.toNat < 32 || c.toNat == 127 then
    ['\\', 'x', hexDigit (c.toNat / 16), hexDigit (c.toNat % 16)]
  else [c]

/-- Model of the Go `fmt` verb `%q` on a string (`strconv.Quote`). -/
def goQuote (s : String) : String :=
  String.mk ('"' :: (s.data.map goEscapeChar).flatten ++ ['"'])

/-- Rendering of a field value by `appendKeyValue` (formatter.go:212):
strings and error messages are written verbatim when `needsQuoting`
returns `true` and `%q`-quoted otherwise (`%q` on an error value quotes
the text of its `Error()` method); any other value is written with
`fmt.Fprint`, i.e. its default textual conversion, unquoted. -/
def valueText : Value → String
  | .str s => if needsQuoting s then s else goQuote s
  | .err m => if needsQuoting m then m else goQuote m
  | .other t => t

/-- Source `appendKeyValue` (formatter.go:212): key, `=`, rendered value,
one trailing space. -/
def appendKeyValue (key : String) (v : Value) : String :=
  key ++ "=" ++ valueText v ++ " "

/-- Rendering of a value by the `%v` / `%+v` verbs as used on the colored
path: the string itself, the error message, or the carried default text. -/
def sprintValue : Value → String
  | .str s => s
  | .err m => m
  | .other t => t

/-- Go map read `m[k]` returning whether the key is present (a map has at
most one entry per key, so the first match is the entry). -/
def lookupKey (k : String) : Fields → Option Value
  | [] => none
  | p :: rest => if p.1 = k then some p.2 else lookupKey k rest

/-- Go map read `data[k]` with the zero-value behaviour of a missing key:
`%v` of an absent `interface{}` entry prints `<nil>`. -/
def lookupV (data : Fields) (k : String) : Value :=
  match lookupKey k data with
  | some v => v
  | none => .other "<nil>"

/-- Go map assignment `data[k] = v`: overwrite the entry if the key is
present, otherwise add a new entry. -/
def mapInsert (data : Fields) (k : String) (v : Value) : Fields :=
  if (lookupKey k data).isSome then
    data.map fun p => if p.1 = k then (k, v) else p
  else data ++ [(k, v)]

/-- One collision-renaming step of `prefixFieldClashes`: if `key` is
present in the map, copy its value to `copyKey`. -/
def pfcStep (key copyKey : String) (d : Fields) : Fields :=
  match lookupKey key d with
  | some v => mapInsert d copyKey v
  | none => d

/-- Source `prefixFieldClashes` (formatter.go:238): copy the values of the
user keys `time`, `msg` and `level`, in that order, to `fields.time`,
`fields.msg` and `fields.level`. -/
def prefixFieldClashes (d : Fields) : Fields :=
  pfcStep "level" "fields.level" (pfcStep "msg" "fields.msg" (pfcStep "time" "fields.time" d))

/-- ANSI constants from the `mgutz/ansi` package used by the source. -/
def ansiReset : String := "\x1b[0m"

def ansiLightBlack : String := "\x1b[0;90m"

def ansiGreen : String := "\x1b[0;32m"

def ansiYellow : String := "\x1b[0;33m"

def ansiRed : String := "\x1b[0;31m"

def ansiBlue : String := "\x1b[0;34m"

def ansiCyan : String := "\x1b[0;36m"

/-- The severity-to-color switch of `printColored` (formatter.go:115);
the Debug case falls through to the default (blue). -/
def levelColorOf : Level → String
  | .info => ansiGreen
  | .warn => ansiYellow
  | .error => ansiRed
  | .fatal => ansiRed
  | .panic => ansiRed
  | .debug => ansiBlue

/-- The severity label of `printColored` (formatter.go:133): upper-case of
the level name, except that Warn uses the literal `WARN`. -/
def levelTextOf (l : Level) : String :=
  if l ≠ .warn then goToUpper l.toGoString else "WARN"

/-- Model of Go `filepath.Base` on a slash-separated path. -/
def filepathBase (p : String) : String :=
  if p = "" then "."
  else
    match (p.splitOn "/").filter (fun c => c ≠ "") |>.getLast? with
    | some c => c
    | none => "/"

/-- The Debug diagnostic suffix (formatter.go:122): caller name, base file
name and line number from `runtime.Caller(6)`, in brackets. -/
def debugInfStr (env : Env) (l : Level) : String :=
  if l = .debug then
    " [" ++ env.callerName ++ "][" ++ filepathBase env.callerFile ++ "][" ++
      natToStr env.callerLine ++ "]"
  else ""

/-- Non-greedy leading-bracket match of the regex `^\[(.*?)\]`: scan for
the first `]`; `.` does not match a newline, so a newline before any `]`
means no match.  Returns the tag characters and the rest of the input. -/
def splitAtClose : List Char → Option (List Char × List Char)
  | [] => none
  | c :: rest =>
    if c = ']' then some ([], rest)
    else if c = '\n' then none
    else match splitAtClose rest with
      | some (t, r) => some (c :: t, r)
      | none => none

/-- Source `extractPrefix` (formatter.go:202): if the message starts with
a bracketed tag matching `^\[(.*?)\]`, return the tag and the remainder
passed through `strings.TrimSpace`; otherwise return `""` and the message
unchanged. -/
def extractPrefixTag (msg : String) : String × String :=
  match msg.data with
  | c :: rest =>
    if c = '[' then
      match splitAtClose rest with
      | some (t, r) => (String.mk t, goTrimSpace (String.mk r))
      | none => ("", msg)
    else ("", msg)
  | [] => ("", msg)

/-- Prefix-tag and message selection of `printColored` (formatter.go:139):
an explicit `prefix` field renders as the tag and leaves the message
alone; otherwise a nonempty tag extracted from the message renders as the
tag and the trimmed remainder becomes the message; otherwise no tag. -/
def coloredPrefixMessage (data : Fields) (message : String) : String × String :=
  match lookupKey "prefix" data with
  | some v => (" " ++ ansiCyan ++ sprintValue v ++ ":" ++ ansiReset, message)
  | none =>
    let pr := extractPrefixTag message
    if 0 < pr.1.length then (" " ++ ansiCyan ++ pr.1 ++ ":" ++ ansiReset, pr.2)
    else ("", message)

/-- The header `Fprintf` of `printColored` (formatter.go:157): marker,
optional timestamp block, right-aligned severity label, Debug diagnostic,
prefix tag and one trailing space, with the color-control sequences
exactly as in the three format strings of the source. -/
def coloredHeader (f : TextFormatter) (env : Env) (entry : Entry) (tsFmt : String)
    (levelColor levelText debugInf pfxTag : String) : String :=
  if f.disableTimestamp then
    ansiLightBlack ++ ansiReset ++ " " ++ levelColor ++ padLeft5 levelText ++
      ansiReset ++ debugInf ++ pfxTag ++ " "
  else if f.shortTimestamp then
    ansiLightBlack ++ "[" ++ pad04 env.miniTS ++ "]" ++ ansiReset ++ " " ++
      levelColor ++ padLeft5 levelText ++ ansiReset ++ debugInf ++ pfxTag ++ " "
  else
    ansiLightBlack ++ "[" ++ entry.time.render tsFmt ++ "]" ++ ansiReset ++ " " ++
      levelColor ++ padLeft5 levelText ++ ansiReset ++ debugInf ++ pfxTag ++ " "

/-- The indent width computed at formatter.go:174: the byte count returned
by the header `Fprintf` minus the byte length of the color-control
sequences it contains (plus, when a prefix tag was printed, the two extra
sequences inside the tag). -/
def indentPad (header pfxTag levelColor : String) : Nat :=
  goLen header -
    (goLen ansiLightBlack + goLen levelColor + 2 * goLen ansiReset +
      (if pfxTag ≠ "" then goLen ansiCyan + goLen ansiReset else 0))

/-- Model of `strings.Replace(message, "\n", "\n" + strings.Repeat(" ", n), -1)`. -/
def replaceNewlines (s : String) (n : Nat) : String :=
  String.mk ((s.data.map fun c =>
    if c = '\n' then '\n' :: List.replicate n ' ' else [c]).flatten)

/-- Application of `messageFormat` (formatter.go:149): `%s` when
`SpacePadding` is zero, otherwise `%-Ns`, which left-justifies the text in
a field of at least `N` characters. -/
def spacePad (f : TextFormatter) (s : String) : String :=
  if f.spacePadding = 0 then s
  else if s.length < f.spacePadding.natAbs then
    s ++ String.mk (List.replicate (f.spacePadding.natAbs - s.length) ' ')
  else s

/-- The trailing `key=value` loop of `printColored` (formatter.go:184). -/
def coloredFieldsStr (levelColor : String) (keys : List String) (data : Fields) : String :=
  String.join (keys.map fun k =>
    " " ++ levelColor ++ k ++ ansiReset ++ "=" ++ sprintValue (lookupV data k))

/-- Source `printColored` (formatter.go:110). -/
def printColored (f : TextFormatter) (env : Env) (entry : Entry)
    (keys : List String) (tsFmt : String) : String :=
  let levelColor := levelColorOf entry.level
  let levelText := levelTextOf entry.level
  let debugInf := debugInfStr env entry.level
  let pm := coloredPrefixMessage entry.data entry.message
  let header := coloredHeader f env entry tsFmt levelColor levelText debugInf pm.1
  let msgPart :=
    if f.indentMultilineMessage && pm.2.data.contains '\n' then
      spacePad f (replaceNewlines pm.2 (indentPad header pm.1 levelColor))
    else spacePad f pm.2
  header ++ msgPart ++ coloredFieldsStr levelColor keys entry.data

/-- Lexicographic comparison of character lists by code point.  On valid
UTF-8 data the code-point order coincides with the Go byte-wise string
order, because UTF-8 encoding preserves code-point order. -/
def charsLe : List Char → List Char → Bool
  | [], _ => true
  | _ :: _, [] => false
  | a :: as, b :: bs =>
    if a.toNat < b.toNat then true
    else if b.toNat < a.toNat then false
    else charsLe as bs

/-- The Go string order `a <= b` used by `sort.Strings`. -/
def strLe (a b : String) : Bool := charsLe a.data b.data

/-- Model of `sort.Strings`: lexicographic (byte-wise ascending) sort. -/
def sortStrings (l : List String) : List String :=
  List.insertionSort (fun a b => strLe a b = true) l

/-- The key list `Format` renders with (formatter.go:68): the keys
enumerated by the `range` loop with `prefix` skipped, sorted unless
`DisableSorting` is set.  `iterOrder` is the (unspecified) order in which
the Go runtime enumerates the map. -/
def establishedKeys (f : TextFormatter) (iterOrder : List String) : List String :=
  let keys := iterOrder.filter fun k => k ≠ "prefix"
  if !f.disableSorting then sortStrings keys else keys

/-- The default layout `time.Stamp`. -/
def timeStamp : String := "Jan _2 15:04:05"

/-- The timestamp format resolution at formatter.go:86. -/
def resolvedTsFmt (f : TextFormatter) : String :=
  if f.timestampFormat = "" then timeStamp else f.timestampFormat

/-- The non-colored branch of `Format` (formatter.go:94): `time` (unless
disabled), `level`, `msg` (unless empty), then the fields in key order,
each through `appendKeyValue`. -/
def nonColoredBody (f : TextFormatter) (entry : Entry) (keys : List String)
    (tsFmt : String) (data : Fields) : String :=
  (if !f.disableTimestamp then appendKeyValue "time" (.str (entry.time.render tsFmt)) else "")
  ++ appendKeyValue "level" (.str entry.level.toGoString)
  ++ (if entry.message ≠ "" then appendKeyValue "msg" (.str entry.message) else "")
  ++ String.join (keys.map fun k => appendKeyValue k (lookupV data k))

/-- Source `Format` (formatter.go:67).  `iterOrder` is the order in which
the `range` loop of line 69 enumerates `entry.Data` (unspecified by Go);
the collision renaming of line 81 happens after that enumeration, and the
renamed map is what the rendering reads.  The error result is the `nil`
of line 107. -/
def Format (f : TextFormatter) (env : Env) (entry : Entry)
    (iterOrder : List String) : String × Option String :=
  let keys := establishedKeys f iterOrder
  let data := prefixFieldClashes entry.data
  let isColorTerminal := env.isTerminal && !env.goosWindows
  let isColored := (f.forceColors || isColorTerminal) && !f.disableColors
  let tsFmt := resolvedTsFmt f
  let body :=
    if isColored then printColored f env { entry with data := data } keys tsFmt
    else nonColoredBody f entry keys tsFmt data
  (body ++ "\n", none)

/-- The in-place mutation of `entry.Data` performed by a call to `Format`
(line 81 mutates the caller map): the entry a second call starts from. -/
def mutateEntry (e : Entry) : Entry :=
  { e with data := prefixFieldClashes e.data }

/-- Drop characters up to and including the terminating `m` of an ANSI
color-control sequence. -/
def dropToM : List Char → List Char
  | [] => []
  | c :: rest => if c = 'm' then rest else dropToM rest

/-- Fuel-driven worker for ANSI stripping; fuel at least the list length
makes it total (see the step lemmas below). -/
def stripAnsiF : Nat → List Char → List Char
  | 0, _ => []
  | _, [] => []
  | fuel + 1, c :: rest =>
    if c = '\x1b' then stripAnsiF fuel (dropToM rest) else c :: stripAnsiF fuel rest

/-- Remove every ANSI escape sequence (`ESC` up to the next `m`) from a
character list: what remains is the visible text. -/
def stripAnsiChars (l : List Char) : List Char := stripAnsiF l.length l

/-- Visible text of a rendered string: the ANSI sequences removed. -/
def stripAnsi (s : String) : String := String.mk (stripAnsiChars s.data)

/-- The string contains no ESC byte (so ANSI stripping leaves it alone). -/
def noEscStr (s : String) : Prop := ∀ c ∈ s.data, c ≠ '\x1b'

instance (s : String) : Decidable (noEscStr s) := by
  unfold noEscStr; infer_instance

/-- Does the character list start with the pattern? -/
def charsStartWith : List Char → List Char → Bool
  | _, [] => true
  | [], _ :: _ => false
  | c :: cs, p :: ps => c = p && charsStartWith cs ps

/-- Does the character list contain the pattern as a contiguous run? -/
def containsChars (pat : List Char) : List Char → Bool
  | [] => charsStartWith [] pat
  | c :: cs => charsStartWith (c :: cs) pat || containsChars pat cs

/-- Substring test: does `s` contain `pat`? -/
def charsContain (s pat : String) : Bool := containsChars pat.data s.data

/-- The non-colored output template as worded by the spec (§6 and §4.1
step 5): `time=<value> ` unless the timestamp is disabled, `level=<value> `,
`msg=<value> ` unless the message is empty, each remaining field as
`key=<value> ` in the established key order, and a trailing newline; field
values follow the §4.1 quoting rule. -/
def specNonColoredLine (f : TextFormatter) (entry : Entry) (orderedKeys : List String)
    (tsFmt : String) (data : Fields) : String :=
  (if f.disableTimestamp then "" else "time=" ++ valueText (.str (entry.time.render tsFmt)) ++ " ")
  ++ ("level=" ++ valueText (.str entry.level.toGoString) ++ " ")
  ++ (if entry.message = "" then "" else "msg=" ++ valueText (.str entry.message) ++ " ")
  ++ String.join (orderedKeys.map fun k => k ++ "=" ++ valueText (lookupV data k) ++ " ")
  ++ "\n"

/-! ### Concrete fixtures used by the closed theorems -/

/-- An environment with no terminal attached. -/
def envNone : Env := {}

/-- A clock whose rendering is the fixed text `TS`. -/
def tTS : GoTime := ⟨fun _ => "TS"⟩

/-- Colors disabled, everything else default. -/
def cfgPlain : TextFormatter := { disableColors := true }

/-- Colors and timestamp disabled. -/
def cfgPlainNoTs : TextFormatter := { disableColors := true, disableTimestamp := true }

/-- Colors, timestamp and sorting disabled. -/
def cfgPlainNoTsNoSort : TextFormatter :=
  { disableColors := true, disableTimestamp := true, disableSorting := true }

/-- A record whose field map holds the reserved key `time`. -/
def entryTimeClash : Entry :=
  { data := [("time", .str "x")], time := tTS, level := .info, message := "" }

/-- A record whose field map holds all three reserved keys. -/
def entryAllClash : Entry :=
  { data := [("time", .str "x"), ("msg", .str "y"), ("level", .str "z")],
    time := tTS, level := .info, message := "" }

/-- Fields inserted as `a` then `b`. -/
def entryAB : Entry :=
  { data := [("a", .other "1"), ("b", .other "2")], time := tTS, level := .info, message := "" }

/-- Fields inserted as `b: 1` then `a: 2` (the spec §8 sorting example). -/
def entryBA : Entry :=
  { data := [("b", .other "1"), ("a", .other "2")], time := tTS, level := .info, message := "" }

/-- A record with a `prefix` field and a bracketed tag in the message. -/
def entryPfxField : Entry :=
  { data := [("prefix", .str "SECRET")], time := tTS, level := .info, message := "[w] hi" }

/-- Forced colors, no timestamp, multi-line indentation on. -/
def cfgColorIndent : TextFormatter :=
  { forceColors := true, disableTimestamp := true, indentMultilineMessage := true }

/-- A two-line message. -/
def entryMultiline : Entry :=
  { data := [], time := tTS, level := .info, message := "ab\ncd" }

/-! ### Lemmas about the map model -/

theorem lookupKey_append (k : String) : ∀ l1 l2 : Fields,
    lookupKey k (l1 ++ l2) =
      match lookupKey k l1 with
      | some v => some v
      | none => lookupKey k l2
  | [], _ => rfl
  | p :: rest, l2 => by
    by_cases h : p.1 = k
    · simp [lookupKey, h]
    · simp [lookupKey, h, lookupKey_append k rest l2]

theorem lookupKey_eq_none_iff (k : String) : ∀ l : Fields,
    lookupKey k l = none ↔ k ∉ l.map Prod.fst
  | [] => by simp [lookupKey]
  | p :: rest => by
    by_cases h : p.1 = k
    · simp [lookupKey, h]
    · simp only [lookupKey, if_neg h, List.map_cons, List.mem_cons]
      rw [lookupKey_eq_none_iff k rest]
      constructor
      · intro hn hc
        rcases hc with he | hm
        · exact h he.symm
        · exact hn hm
      · intro hn hm
        exact hn (.inr hm)

theorem keys_map_update (d : Fields) (k : String) (v : Value) :
    ((d.map fun p => if p.1 = k then (k, v) else p).map Prod.fst) = d.map Prod.fst := by
  induction d with
  | nil => rfl
  | cons p rest ih =>
    by_cases h : p.1 = k <;> simp [h, ih]

theorem update_lookup_self (k : String) (v : Value) : ∀ d : Fields,
    (lookupKey k d).isSome = true →
    lookupKey k (d.map fun p => if p.1 = k then (k, v) else p) = some v
  | [], h => by simp [lookupKey] at h
  | p :: rest, h => by
    by_cases hp : p.1 = k
    · simp [lookupKey, hp]
    · simp only [lookupKey, hp, if_false, List.map_cons, if_neg hp] at h ⊢
      exact update_lookup_self k v rest h

theorem update_lookup_ne (k k' : String) (v : Value) (h : k' ≠ k) : ∀ d : Fields,
    lookupKey k' (d.map fun p => if p.1 = k then (k, v) else p) = lookupKey k' d
  | [] => rfl
  | p :: rest => by
    have hne : ¬k = k' := fun hkk => h hkk.symm
    by_cases hp : p.1 = k
    · simp [lookupKey, hp, hne, update_lookup_ne k k' v h rest]
    · simp [lookupKey, hp, update_lookup_ne k k' v h rest]

theorem update_id_of_not_mem (k : String) (v : Value) : ∀ d : Fields,
    k ∉ d.map Prod.fst → (d.map fun p => if p.1 = k then (k, v) else p) = d
  | [], _ => rfl
  | p :: rest, h => by
    rw [List.map_cons, List.mem_cons] at h
    push_neg at h
    have hp : ¬p.1 = k := fun he => h.1 he.symm
    simp [hp, update_id_of_not_mem k v rest h.2]

theorem update_id (k : String) (v : Value) : ∀ d : Fields,
    lookupKey k d = some v → (d.map Prod.fst).Nodup →
    (d.map fun p => if p.1 = k then (k, v) else p) = d
  | p :: rest, h, hnd => by
    rw [List.map_cons, List.nodup_cons] at hnd
    simp only [lookupKey] at h
    by_cases hp : p.1 = k
    · rw [if_pos hp] at h
      injection h with hbv
      have hrest : (rest.map fun q => if q.1 = k then (k, v) else q) = rest :=
        update_id_of_not_mem k v rest (hp ▸ hnd.1)
      have hhead : (if p.1 = k then (k, v) else p) = p := by
        rw [if_pos hp]
        exact Prod.ext hp.symm hbv.symm
      simp only [List.map_cons, hrest, hhead]
    · rw [if_neg hp] at h
      have hrest := update_id k v rest h hnd.2
      simp only [List.map_cons, hrest, if_neg hp]

theorem mapInsert_lookup_self (d : Fields) (k : String) (v : Value) :
    lookupKey k (mapInsert d k v) = some v := by
  unfold mapInsert
  by_cases h : (lookupKey k d).isSome
  · rw [if_pos h]
    exact update_lookup_self k v d h
  · rw [if_neg h, lookupKey_append]
    rw [Option.not_isSome_iff_eq_none] at h
    simp [h, lookupKey]

theorem mapInsert_lookup_ne (d : Fields) (k k' : String) (v : Value) (h : k' ≠ k) :
    lookupKey k' (mapInsert d k v) = lookupKey k' d := by
  unfold mapInsert
  by_cases hs : (lookupKey k d).isSome
  · rw [if_pos hs]
    exact update_lookup_ne k k' v h d
  · rw [if_neg hs, lookupKey_append]
    have hne : ¬k = k' := fun hk => h hk.symm
    cases hl : lookupKey k' d with
    | some w => simp
    | none => simp [lookupKey, hne]

theorem mapInsert_keys_cases (d : Fields) (k : String) (v : Value) :
    (mapInsert d k v).map Prod.fst = d.map Prod.fst ∨
    (mapInsert d k v).map Prod.fst = d.map Prod.fst ++ [k] := by
  unfold mapInsert
  by_cases h : (lookupKey k d).isSome
  · exact .inl (by rw [if_pos h]; exact keys_map_update d k v)
  · exact .inr (by rw [if_neg h]; simp)

theorem mapInsert_nodup (d : Fields) (k : String) (v : Value)
    (h : (d.map Prod.fst).Nodup) : ((mapInsert d k v).map Prod.fst).Nodup := by
  unfold mapInsert
  by_cases hs : (lookupKey k d).isSome
  · rw [if_pos hs, keys_map_update]
    exact h
  · rw [if_neg hs]
    rw [Option.not_isSome_iff_eq_none, lookupKey_eq_none_iff] at hs
    rw [List.map_append]
    simp only [List.map_cons, List.map_nil]
    rw [List.nodup_append]
    exact ⟨h, List.nodup_singleton k, fun a ha hb =>
      hs ((List.mem_singleton.mp hb) ▸ ha)⟩

theorem mapInsert_id (d : Fields) (k : String) (v : Value)
    (h : lookupKey k d = some v) (hnd : (d.map Prod.fst).Nodup) :
    mapInsert d k v = d := by
  unfold mapInsert
  rw [if_pos (by simp [h])]
  exact update_id k v d h hnd

theorem pfcStep_lookup_ne (key ck k' : String) (d : Fields) (h : k' ≠ ck) :
    lookupKey k' (pfcStep key ck d) = lookupKey k' d := by
  unfold pfcStep
  cases hl : lookupKey key d with
  | none => rfl
  | some v => exact mapInsert_lookup_ne d ck k' v h

theorem pfcStep_copy (key ck : String) (d : Fields) (v : Value)
    (h : lookupKey key d = some v) : lookupKey ck (pfcStep key ck d) = some v := by
  unfold pfcStep
  rw [h]
  exact mapInsert_lookup_self d ck v

theorem pfcStep_id (key ck : String) (d : Fields)
    (h : ∀ v, lookupKey key d = some v → lookupKey ck d = some v)
    (hnd : (d.map Prod.fst).Nodup) : pfcStep key ck d = d := by
  unfold pfcStep
  cases hl : lookupKey key d with
  | none => rfl
  | some v => exact mapInsert_id d ck v (h v hl) hnd

theorem pfcStep_nodup (key ck : String) (d : Fields)
    (hnd : (d.map Prod.fst).Nodup) : ((pfcStep key ck d).map Prod.fst).Nodup := by
  unfold pfcStep
  cases lookupKey key d with
  | none => exact hnd
  | some v => exact mapInsert_nodup d ck v hnd

theorem pfcStep_keys_sub (key ck k : String) (d : Fields)
    (h : k ∈ (pfcStep key ck d).map Prod.fst) :
    k ∈ d.map Prod.fst ∨ k = ck := by
  unfold pfcStep at h
  cases hl : lookupKey key d with
  | none => rw [hl] at h; exact .inl h
  | some v =>
    rw [hl] at h
    rcases mapInsert_keys_cases d ck v with hc | hc
    · exact .inl (hc ▸ h)
    · rw [hc] at h
      rcases List.mem_append.mp h with h | h
      · exact .inl h
      · exact .inr (List.mem_singleton.mp h)

theorem pfc_lookup_orig (k : String) (d : Fields)
    (h1 : k ≠ "fields.time") (h2 : k ≠ "fields.msg") (h3 : k ≠ "fields.level") :
    lookupKey k (prefixFieldClashes d) = lookupKey k d := by
  unfold prefixFieldClashes
  rw [pfcStep_lookup_ne _ _ _ _ h3, pfcStep_lookup_ne _ _ _ _ h2,
    pfcStep_lookup_ne _ _ _ _ h1]

theorem pfc_copy_time (d : Fields) (v : Value) (h : lookupKey "time" d = some v) :
    lookupKey "fields.time" (prefixFieldClashes d) = some v := by
  unfold prefixFieldClashes
  rw [pfcStep_lookup_ne _ _ _ _ (by decide), pfcStep_lookup_ne _ _ _ _ (by decide)]
  exact pfcStep_copy _ _ _ _ h

theorem pfc_copy_msg (d : Fields) (v : Value) (h : lookupKey "msg" d = some v) :
    lookupKey "fields.msg" (prefixFieldClashes d) = some v := by
  unfold prefixFieldClashes
  rw [pfcStep_lookup_ne _ _ _ _ (by decide)]
  exact pfcStep_copy _ _ _ _
    ((pfcStep_lookup_ne "time" "fields.time" "msg" d (by decide)).trans h)

theorem pfc_copy_level (d : Fields) (v : Value) (h : lookupKey "level" d = some v) :
    lookupKey "fields.level" (prefixFieldClashes d) = some v := by
  unfold prefixFieldClashes
  exact pfcStep_copy _ _ _ _
    (((pfcStep_lookup_ne "msg" "fields.msg" "level" _ (by decide)).trans
      (pfcStep_lookup_ne "time" "fields.time" "level" d (by decide))).trans h)

theorem pfc_nodup (d : Fields) (hnd : (d.map Prod.fst).Nodup) :
    ((prefixFieldClashes d).map Prod.fst).Nodup :=
  pfcStep_nodup _ _ _ (pfcStep_nodup _ _ _ (pfcStep_nodup _ _ _ hnd))

theorem pfc_keys_sub (k : String) (d : Fields)
    (h : k ∈ (prefixFieldClashes d).map Prod.fst) :
    k ∈ d.map Prod.fst ∨ k = "fields.time" ∨ k = "fields.msg" ∨ k = "fields.level" := by
  unfold prefixFieldClashes at h
  rcases pfcStep_keys_sub _ _ _ _ h with h | h
  · rcases pfcStep_keys_sub _ _ _ _ h with h | h
    · rcases pfcStep_keys_sub _ _ _ _ h with h | h
      · exact .inl h
      · exact .inr (.inl h)
    · exact .inr (.inr (.inl h))
  · exact .inr (.inr (.inr h))

theorem pfc_idem (d : Fields) (hnd : (d.map Prod.fst).Nodup) :
    prefixFieldClashes (prefixFieldClashes d) = prefixFieldClashes d := by
  have hD : ((prefixFieldClashes d).map Prod.fst).Nodup := pfc_nodup d hnd
  have ht : pfcStep "time" "fields.time" (prefixFieldClashes d) = prefixFieldClashes d := by
    refine pfcStep_id _ _ _ (fun v hv => ?_) hD
    rw [pfc_lookup_orig "time" d (by decide) (by decide) (by decide)] at hv
    exact pfc_copy_time d v hv
  have hm : pfcStep "msg" "fields.msg" (prefixFieldClashes d) = prefixFieldClashes d := by
    refine pfcStep_id _ _ _ (fun v hv => ?_) hD
    rw [pfc_lookup_orig "msg" d (by decide) (by decide) (by decide)] at hv
    exact pfc_copy_msg d v hv
  have hl : pfcStep "level" "fields.level" (prefixFieldClashes d) = prefixFieldClashes d := by
    refine pfcStep_id _ _ _ (fun v hv => ?_) hD
    rw [pfc_lookup_orig "level" d (by decide) (by decide) (by decide)] at hv
    exact pfc_copy_level d v hv
  show prefixFieldClashes (prefixFieldClashes d) = prefixFieldClashes d
  conv_lhs => rw [prefixFieldClashes, ht, hm, hl]

/-! ### Lemmas about key ordering -/

theorem charsLe_cons_iff (a b : Char) (as bs : List Char) :
    charsLe (a :: as) (b :: bs) = true ↔
      a.toNat < b.toNat ∨ (a.toNat = b.toNat ∧ charsLe as bs = true) := by
  simp only [charsLe]
  by_cases h1 : a.toNat < b.toNat
  · simp [h1]
  · by_cases h2 : b.toNat < a.toNat
    · rw [if_neg h1, if_pos h2]
      constructor
      · intro hf
        exact absurd hf (by simp)
      · rintro (hl | ⟨he, _⟩) <;> omega
    · have he : a.toNat = b.toNat :=
        Nat.le_antisymm (Nat.not_lt.mp h2) (Nat.not_lt.mp h1)
      rw [if_neg h1, if_neg h2]
      constructor
      · intro hr
        exact .inr ⟨he, hr⟩
      · rintro (hl | ⟨_, hr⟩)
        · omega
        · exact hr

theorem charsLe_total : ∀ as bs, charsLe as bs = true ∨ charsLe bs as = true
  | [], _ => .inl rfl
  | _ :: _, [] => .inr rfl
  | a :: as, b :: bs => by
    rw [charsLe_cons_iff, charsLe_cons_iff]
    by_cases hab : a.toNat < b.toNat
    · exact .inl (.inl hab)
    · by_cases hba : b.toNat < a.toNat
      · exact .inr (.inl hba)
      · rcases charsLe_total as bs with h | h
        · exact .inl (.inr ⟨by omega, h⟩)
        · exact .inr (.inr ⟨by omega, h⟩)

theorem charsLe_trans : ∀ as bs cs,
    charsLe as bs = true → charsLe bs cs = true → charsLe as cs = true
  | [], _, _, _, _ => rfl
  | _ :: _, [], _, h1, _ => by simp [charsLe] at h1
  | _ :: _, _ :: _, [], _, h2 => by simp [charsLe] at h2
  | a :: as, b :: bs, c :: cs, h1, h2 => by
    rw [charsLe_cons_iff] at h1 h2 ⊢
    rcases h1 with h1 | ⟨e1, r1⟩ <;> rcases h2 with h2 | ⟨e2, r2⟩
    · exact .inl (by omega)
    · exact .inl (by omega)
    · exact .inl (by omega)
    · exact .inr ⟨by omega, charsLe_trans as bs cs r1 r2⟩

theorem charsLe_antisymm : ∀ as bs,
    charsLe as bs = true → charsLe bs as = true → as = bs
  | [], [], _, _ => rfl
  | [], _ :: _, _, h2 => by simp [charsLe] at h2
  | _ :: _, [], h1, _ => by simp [charsLe] at h1
  | a :: as, b :: bs, h1, h2 => by
    rw [charsLe_cons_iff] at h1 h2
    rcases h1 with h1 | ⟨e1, r1⟩
    · rcases h2 with h2 | ⟨e2, _⟩ <;> omega
    · rcases h2 with h2 | ⟨_, r2⟩
      · omega
      · have hc : a = b :=
          Char.ofNat_toNat a ▸ Char.ofNat_toNat b ▸ congrArg Char.ofNat e1
        rw [hc, charsLe_antisymm as bs r1 r2]

theorem strLe_total (a b : String) : strLe a b = true ∨ strLe b a = true :=
  charsLe_total a.data b.data

theorem strLe_trans (a b c : String) :
    strLe a b = true → strLe b c = true → strLe a c = true :=
  charsLe_trans a.data b.data c.data

theorem strLe_antisymm (a b : String) :
    strLe a b = true → strLe b a = true → a = b := fun h1 h2 =>
  String.ext (charsLe_antisymm a.data b.data h1 h2)

theorem sortStrings_sorted (l : List String) :
    List.Sorted (fun a b : String => strLe a b = true) (sortStrings l) := by
  haveI : IsTotal String (fun a b : String => strLe a b = true) := ⟨strLe_total⟩
  haveI : IsTrans String (fun a b : String => strLe a b = true) := ⟨strLe_trans⟩
  exact List.sorted_insertionSort _ l

theorem mem_sortStrings {a : String} {l : List String} :
    a ∈ sortStrings l ↔ a ∈ l :=
  (List.perm_insertionSort _ l).mem_iff

theorem sortStrings_eq_of_perm {l1 l2 : List String} (h : l1.Perm l2) :
    sortStrings l1 = sortStrings l2 := by
  haveI : IsAntisymm String (fun a b : String => strLe a b = true) := ⟨strLe_antisymm⟩
  exact List.eq_of_perm_of_sorted
    ((List.perm_insertionSort _ l1).trans (h.trans (List.perm_insertionSort _ l2).symm))
    (sortStrings_sorted l1) (sortStrings_sorted l2)

theorem mem_establishedKeys (f : TextFormatter) (iter : List String) (k : String) :
    k ∈ establishedKeys f iter ↔ k ∈ iter ∧ k ≠ "prefix" := by
  unfold establishedKeys
  cases f.disableSorting <;>
    simp [mem_sortStrings, List.mem_filter]

theorem establishedKeys_eq_of_perm (f : TextFormatter) (hs : f.disableSorting = false)
    {i1 i2 : List String} (h : i1.Perm i2) :
    establishedKeys f i1 = establishedKeys f i2 := by
  unfold establishedKeys
  rw [hs]
  simp only [Bool.not_false, if_true]
  exact sortStrings_eq_of_perm (h.filter _)

theorem Format_congr_iter (f : TextFormatter) (env : Env) (e : Entry)
    {i1 i2 : List String} (h : establishedKeys f i1 = establishedKeys f i2) :
    Format f env e i1 = Format f env e i2 := by
  unfold Format
  rw [h]

/-! ### Visible width: stripping ANSI control sequences -/

theorem dropToM_length_le : ∀ l : List Char, (dropToM l).length ≤ l.length
  | [] => Nat.le_refl 0
  | c :: rest => by
    unfold dropToM
    by_cases h : c = 'm'
    · simp [h]
    · rw [if_neg h]
      exact Nat.le_succ_of_le (dropToM_length_le rest)

theorem stripAnsiF_stable : ∀ (f1 f2 : Nat) (l : List Char),
    l.length ≤ f1 → l.length ≤ f2 → stripAnsiF f1 l = stripAnsiF f2 l
  | 0, 0, _, _, _ => rfl
  | 0, _ + 1, l, h1, _ => by
    rw [List.length_eq_zero.mp (Nat.le_zero.mp h1)]
    rfl
  | _ + 1, 0, l, _, h2 => by
    rw [List.length_eq_zero.mp (Nat.le_zero.mp h2)]
    rfl
  | f1 + 1, f2 + 1, [], _, _ => rfl
  | f1 + 1, f2 + 1, c :: rest, h1, h2 => by
    rw [List.length_cons] at h1 h2
    by_cases hc : c = '\x1b'
    · rw [stripAnsiF, stripAnsiF, if_pos hc, if_pos hc]
      exact stripAnsiF_stable f1 f2 (dropToM rest)
        (Nat.le_trans (dropToM_length_le rest) (Nat.le_of_succ_le_succ h1))
        (Nat.le_trans (dropToM_length_le rest) (Nat.le_of_succ_le_succ h2))
    · rw [stripAnsiF, stripAnsiF, if_neg hc, if_neg hc,
        stripAnsiF_stable f1 f2 rest (Nat.le_of_succ_le_succ h1)
          (Nat.le_of_succ_le_succ h2)]

theorem stripAnsiChars_cons_esc (rest : List Char) :
    stripAnsiChars ('\x1b' :: rest) = stripAnsiChars (dropToM rest) := by
  show stripAnsiF (rest.length + 1) ('\x1b' :: rest) = _
  rw [stripAnsiF, if_pos rfl]
  exact stripAnsiF_stable rest.length (dropToM rest).length (dropToM rest)
    (dropToM_length_le rest) (Nat.le_refl _)

theorem stripAnsiChars_cons_ne (c : Char) (rest : List Char) (h : c ≠ '\x1b') :
    stripAnsiChars (c :: rest) = c :: stripAnsiChars rest := by
  show stripAnsiF (rest.length + 1) (c :: rest) = _
  rw [stripAnsiF, if_neg h]
  rfl

theorem stripAnsi_noEsc_append (a : List Char) (b : List Char)
    (h : ∀ c ∈ a, c ≠ '\x1b') : stripAnsiChars (a ++ b) = a ++ stripAnsiChars b := by
  induction a with
  | nil => rfl
  | cons c r ih =>
    have hc : c ≠ '\x1b' := h c (List.mem_cons_self c r)
    rw [List.cons_append, stripAnsiChars_cons_ne c _ hc,
      ih fun x hx => h x (List.mem_cons_of_mem c hx), List.cons_append]

theorem dropToM_code (body rest : List Char) (h : ∀ c ∈ body, c ≠ 'm') :
    dropToM (body ++ 'm' :: rest) = rest := by
  induction body with
  | nil => simp [dropToM]
  | cons c r ih =>
    have hc : c ≠ 'm' := h c (List.mem_cons_self c r)
    rw [List.cons_append, dropToM, if_neg hc,
      ih fun x hx => h x (List.mem_cons_of_mem c hx)]

theorem stripAnsi_esc (body rest : List Char) (h : ∀ c ∈ body, c ≠ 'm') :
    stripAnsiChars ('\x1b' :: (body ++ 'm' :: rest)) = stripAnsiChars rest := by
  rw [stripAnsiChars_cons_esc, dropToM_code body rest h]

theorem byteLenChars_append (a b : List Char) :
    byteLenChars (a ++ b) = byteLenChars a + byteLenChars b := by
  induction a with
  | nil => simp [byteLenChars]
  | cons c r ih => rw [List.cons_append, byteLenChars, byteLenChars, ih]; omega

theorem goLen_append (a b : String) : goLen (a ++ b) = goLen a + goLen b := by
  cases a with
  | mk da =>
    cases b with
    | mk db =>
      show byteLenChars (String.data (String.mk da ++ String.mk db)) = _
      rw [show String.mk da ++ String.mk db = String.mk (da ++ db) from rfl]
      exact byteLenChars_append da db

theorem stripAnsi_lb (rest : List Char) :
    stripAnsiChars (ansiLightBlack.data ++ rest) = stripAnsiChars rest := by
  show stripAnsiChars ('\x1b' :: (['[', '0', ';', '9', '0'] ++ 'm' :: rest)) = stripAnsiChars rest
  exact stripAnsi_esc _ _ (by decide)

theorem stripAnsi_reset (rest : List Char) :
    stripAnsiChars (ansiReset.data ++ rest) = stripAnsiChars rest := by
  show stripAnsiChars ('\x1b' :: (['[', '0'] ++ 'm' :: rest)) = stripAnsiChars rest
  exact stripAnsi_esc _ _ (by decide)

theorem stripAnsi_cyan (rest : List Char) :
    stripAnsiChars (ansiCyan.data ++ rest) = stripAnsiChars rest := by
  show stripAnsiChars ('\x1b' :: (['[', '0', ';', '3', '6'] ++ 'm' :: rest)) = stripAnsiChars rest
  exact stripAnsi_esc _ _ (by decide)

theorem stripAnsi_levelColor (lvl : Level) (rest : List Char) :
    stripAnsiChars ((levelColorOf lvl).data ++ rest) = stripAnsiChars rest := by
  cases lvl
  case panic => exact stripAnsi_esc ['[', '0', ';', '3', '1'] rest (by decide)
  case fatal => exact stripAnsi_esc ['[', '0', ';', '3', '1'] rest (by decide)
  case error => exact stripAnsi_esc ['[', '0', ';', '3', '1'] rest (by decide)
  case warn => exact stripAnsi_esc ['[', '0', ';', '3', '3'] rest (by decide)
  case info => exact stripAnsi_esc ['[', '0', ';', '3', '2'] rest (by decide)
  case debug => exact stripAnsi_esc ['[', '0', ';', '3', '4'] rest (by decide)

theorem decDigit_ne_esc (k : Nat) : decDigit k ≠ '\x1b' := by
  unfold decDigit
  repeat' split
  all_goals decide

theorem natDigits_noEsc (n : Nat) : ∀ c ∈ natDigits n, c ≠ '\x1b' := by
  induction n using Nat.strong_induction_on with
  | _ n ih =>
    rw [natDigits]
    split
    · intro c hc
      rw [List.mem_singleton] at hc
      rw [hc]
      exact decDigit_ne_esc n
    · intro c hc
      rcases List.mem_append.mp hc with h | h
      · exact ih (n / 10) (Nat.div_lt_self (by omega) (by omega)) c h
      · rw [List.mem_singleton] at h
        rw [h]
        exact decDigit_ne_esc _

theorem noEsc_natToStr (n : Nat) : noEscStr (natToStr n) := fun c hc =>
  natDigits_noEsc n c hc

theorem noEsc_pad04 (n : Nat) : noEscStr (pad04 n) := by
  have hdef : pad04 n =
      (if (natToStr n).length < 4 then
        String.mk (List.replicate (4 - (natToStr n).length) '0') ++ natToStr n
      else natToStr n) := rfl
  intro c hc
  rw [hdef] at hc
  split at hc
  · rw [String.data_append] at hc
    rcases List.mem_append.mp hc with h | h
    · rw [List.eq_of_mem_replicate h]
      decide
    · exact noEsc_natToStr n c h
  · exact noEsc_natToStr n c hc

theorem noEsc_padLevelText (lvl : Level) : noEscStr (padLeft5 (levelTextOf lvl)) := by
  cases lvl <;> decide

theorem indentPad_eq_visible (f : TextFormatter) (env : Env) (entry : Entry)
    (tsFmt : String) (lvl : Level) (ltxt dbg pfxTag : String)
    (hlt : noEscStr (padLeft5 ltxt)) (hdbg : noEscStr dbg)
    (hts : noEscStr (entry.time.render tsFmt))
    (hp : pfxTag = "" ∨ ∃ t, pfxTag = " " ++ ansiCyan ++ t ++ ":" ++ ansiReset ∧ noEscStr t) :
    indentPad (coloredHeader f env entry tsFmt (levelColorOf lvl) ltxt dbg pfxTag) pfxTag
        (levelColorOf lvl)
      = goLen (stripAnsi (coloredHeader f env entry tsFmt (levelColorOf lvl) ltxt dbg pfxTag)) := by
  have hfin : stripAnsiChars (" " : String).data = (" " : String).data := by decide
  have hemp : ("" : String).data = ([] : List Char) := rfl
  unfold coloredHeader
  rcases hp with hp | ⟨t, hpfx, htag⟩
  · subst hp
    cases hdt : f.disableTimestamp <;> cases hst : f.shortTimestamp <;>
      simp only [if_true, if_false, Bool.false_eq_true, Bool.true_eq_false]
    all_goals
      unfold indentPad stripAnsi goLen
    all_goals rw [if_neg (by simp)]
    all_goals simp only [String.data_append, List.append_assoc, hemp, List.nil_append]
    · rw [stripAnsi_lb,
        stripAnsi_noEsc_append ("[" : String).data _ (by decide),
        stripAnsi_noEsc_append (entry.time.render tsFmt).data _ hts,
        stripAnsi_noEsc_append ("]" : String).data _ (by decide),
        stripAnsi_reset,
        stripAnsi_noEsc_append (" " : String).data _ (by decide),
        stripAnsi_levelColor lvl,
        stripAnsi_noEsc_append (padLeft5 ltxt).data _ hlt,
        stripAnsi_reset,
        stripAnsi_noEsc_append dbg.data _ hdbg,
        hfin]
      simp only [byteLenChars_append]
      omega
    · rw [stripAnsi_lb,
        stripAnsi_noEsc_append ("[" : String).data _ (by decide),
        stripAnsi_noEsc_append (pad04 env.miniTS).data _ (noEsc_pad04 env.miniTS),
        stripAnsi_noEsc_append ("]" : String).data _ (by decide),
        stripAnsi_reset,
        stripAnsi_noEsc_append (" " : String).data _ (by decide),
        stripAnsi_levelColor lvl,
        stripAnsi_noEsc_append (padLeft5 ltxt).data _ hlt,
        stripAnsi_reset,
        stripAnsi_noEsc_append dbg.data _ hdbg,
        hfin]
      simp only [byteLenChars_append]
      omega
    · rw [stripAnsi_lb, stripAnsi_reset,
        stripAnsi_noEsc_append (" " : String).data _ (by decide),
        stripAnsi_levelColor lvl,
        stripAnsi_noEsc_append (padLeft5 ltxt).data _ hlt,
        stripAnsi_reset,
        stripAnsi_noEsc_append dbg.data _ hdbg,
        hfin]
      simp only [byteLenChars_append]
      omega
    · rw [stripAnsi_lb, stripAnsi_reset,
        stripAnsi_noEsc_append (" " : String).data _ (by decide),
        stripAnsi_levelColor lvl,
        stripAnsi_noEsc_append (padLeft5 ltxt).data _ hlt,
        stripAnsi_reset,
        stripAnsi_noEsc_append dbg.data _ hdbg,
        hfin]
      simp only [byteLenChars_append]
      omega
  · subst hpfx
    have hne : (" " ++ ansiCyan ++ t ++ ":" ++ ansiReset) ≠ "" := by
      intro hcontra
      have := congrArg String.data hcontra
      simp [String.data_append] at this
    cases hdt : f.disableTimestamp <;> cases hst : f.shortTimestamp <;>
      simp only [if_true, if_false, Bool.false_eq_true, Bool.true_eq_false]
    all_goals
      unfold indentPad stripAnsi goLen
    all_goals rw [if_pos hne]
    all_goals simp only [String.data_append, List.append_assoc]
    · rw [stripAnsi_lb,
        stripAnsi_noEsc_append ("[" : String).data _ (by decide),
        stripAnsi_noEsc_append (entry.time.render tsFmt).data _ hts,
        stripAnsi_noEsc_append ("]" : String).data _ (by decide),
        stripAnsi_reset,
        stripAnsi_noEsc_append (" " : String).data _ (by decide),
        stripAnsi_levelColor lvl,
        stripAnsi_noEsc_append (padLeft5 ltxt).data _ hlt,
        stripAnsi_reset,
        stripAnsi_noEsc_append dbg.data _ hdbg,
        stripAnsi_noEsc_append (" " : String).data _ (by decide),
        stripAnsi_cyan,
        stripAnsi_noEsc_append t.data _ htag,
        stripAnsi_noEsc_append (":" : String).data _ (by decide),
        stripAnsi_reset,
        hfin]
      simp only [byteLenChars_append]
      omega
    · rw [stripAnsi_lb,
        stripAnsi_noEsc_append ("[" : String).data _ (by decide),
        stripAnsi_noEsc_append (pad04 env.miniTS).data _ (noEsc_pad04 env.miniTS),
        stripAnsi_noEsc_append ("]" : String).data _ (by decide),
        stripAnsi_reset,
        stripAnsi_noEsc_append (" " : String).data _ (by decide),
        stripAnsi_levelColor lvl,
        stripAnsi_noEsc_append (padLeft5 ltxt).data _ hlt,
        stripAnsi_reset,
        stripAnsi_noEsc_append dbg.data _ hdbg,
        stripAnsi_noEsc_append (" " : String).data _ (by decide),
        stripAnsi_cyan,
        stripAnsi_noEsc_append t.data _ htag,
        stripAnsi_noEsc_append (":" : String).data _ (by decide),
        stripAnsi_reset,
        hfin]
      simp only [byteLenChars_append]
      omega
    · rw [stripAnsi_lb, stripAnsi_reset,
        stripAnsi_noEsc_append (" " : String).data _ (by decide),
        stripAnsi_levelColor lvl,
        stripAnsi_noEsc_append (padLeft5 ltxt).data _ hlt,
        stripAnsi_reset,
        stripAnsi_noEsc_append dbg.data _ hdbg,
        stripAnsi_noEsc_append (" " : String).data _ (by decide),
        stripAnsi_cyan,
        stripAnsi_noEsc_append t.data _ htag,
        stripAnsi_noEsc_append (":" : String).data _ (by decide),
        stripAnsi_reset,
        hfin]
      simp only [byteLenChars_append]
      omega
    · rw [stripAnsi_lb, stripAnsi_reset,
        stripAnsi_noEsc_append (" " : String).data _ (by decide),
        stripAnsi_levelColor lvl,
        stripAnsi_noEsc_append (padLeft5 ltxt).data _ hlt,
        stripAnsi_reset,
        stripAnsi_noEsc_append dbg.data _ hdbg,
        stripAnsi_noEsc_append (" " : String).data _ (by decide),
        stripAnsi_cyan,
        stripAnsi_noEsc_append t.data _ htag,
        stripAnsi_noEsc_append (":" : String).data _ (by decide),
        stripAnsi_reset,
        hfin]
      simp only [byteLenChars_append]
      omega

/-! ### Lemmas about quoting -/

theorem needsQuoting_iff (s : String) :
    needsQuoting s = true ↔ ∀ c ∈ s.data, specNoQuote c := by
  simp [needsQuoting, List.all_eq_true, decide_eq_true_iff]

theorem one_le_goEscapeChar_length (c : Char) : 1 ≤ (goEscapeChar c).length := by
  unfold goEscapeChar
  repeat' split
  all_goals simp

theorem length_le_flatten_escapes (l : List Char) :
    l.length ≤ ((l.map goEscapeChar).flatten).length := by
  induction l with
  | nil => simp
  | cons c r ih =>
    simp only [List.map_cons, List.flatten_cons, List.length_append, List.length_cons]
    have := one_le_goEscapeChar_length c
    omega

theorem goQuote_ne (s : String) : goQuote s ≠ s := by
  intro h
  have hl : (goQuote s).data.length = s.data.length :=
    congrArg List.length (congrArg String.data h)
  have hq : (goQuote s).data.length =
      ((s.data.map goEscapeChar).flatten).length + 2 := by
    show ('"' :: ((s.data.map goEscapeChar).flatten ++ ['"'])).length = _
    simp
  have := length_le_flatten_escapes s.data
  omega

theorem goQuote_getLast (s : String) : (goQuote s).data.getLast? = some '"' := by
  show ('"' :: ((s.data.map goEscapeChar).flatten ++ ['"'])).getLast? = some '"'
  rw [← List.cons_append]
  exact List.getLast?_concat _

/-! ### Lemmas about prefix extraction -/

theorem strMkData (s : String) : String.mk s.data = s := by
  cases s
  rfl

theorem splitAtClose_spec (tag rest : List Char)
    (h1 : ∀ c ∈ tag, c ≠ ']') (h2 : ∀ c ∈ tag, c ≠ '\n') :
    splitAtClose (tag ++ ']' :: rest) = some (tag, rest) := by
  induction tag with
  | nil => simp [splitAtClose]
  | cons c r ih =>
    have hc1 : c ≠ ']' := h1 c (List.mem_cons_self c r)
    have hc2 : c ≠ '\n' := h2 c (List.mem_cons_self c r)
    rw [List.cons_append, splitAtClose, if_neg hc1, if_neg hc2,
      ih (fun x hx => h1 x (List.mem_cons_of_mem c hx))
        (fun x hx => h2 x (List.mem_cons_of_mem c hx))]

theorem extractPrefixTag_spec (tag rest : String)
    (h1 : ∀ c ∈ tag.data, c ≠ ']') (h2 : ∀ c ∈ tag.data, c ≠ '\n') :
    extractPrefixTag ("[" ++ tag ++ "]" ++ rest) = (tag, goTrimSpace rest) := by
  have hbl : "[".data = ['['] := rfl
  have hbr : "]".data = [']'] := rfl
  have hd : ("[" ++ tag ++ "]" ++ rest).data = '[' :: (tag.data ++ ']' :: rest.data) := by
    simp [String.data_append, hbl, hbr]
  unfold extractPrefixTag
  rw [hd]
  simp only [splitAtClose_spec tag.data rest.data h1 h2, if_true]

theorem splitAtClose_sub : ∀ l t r, splitAtClose l = some (t, r) → ∀ c ∈ t, c ∈ l
  | [], _, _, h => by simp [splitAtClose] at h
  | c0 :: rest, t, r, h => by
    unfold splitAtClose at h
    by_cases h1 : c0 = ']'
    · rw [if_pos h1] at h
      injection h with h
      injection h with ht _
      intro c hc
      rw [← ht] at hc
      exact absurd hc (List.not_mem_nil c)
    · rw [if_neg h1] at h
      by_cases h2 : c0 = '\n'
      · rw [if_pos h2] at h
        exact absurd h (by simp)
      · rw [if_neg h2] at h
        cases hs : splitAtClose rest with
        | none => rw [hs] at h; exact absurd h (by simp)
        | some pr =>
          rw [hs] at h
          injection h with h
          injection h with ht _
          rw [← ht]
          intro c hc
          rcases List.mem_cons.mp hc with he | hm
          · rw [he]
            exact List.mem_cons_self c0 rest
          · exact List.mem_cons_of_mem c0 (splitAtClose_sub rest pr.1 pr.2 (by rw [hs]) c hm)

theorem extractTag_noEsc (msg : String) (h : noEscStr msg) :
    noEscStr (extractPrefixTag msg).1 := by
  intro c hc
  unfold extractPrefixTag at hc
  cases hd : msg.data with
  | nil => rw [hd] at hc; simp at hc
  | cons c0 rest =>
    rw [hd] at hc
    dsimp only at hc
    by_cases hc0 : c0 = '['
    · subst hc0
      rw [if_pos rfl] at hc
      cases hs : splitAtClose rest with
      | none => rw [hs] at hc; simp at hc
      | some pr =>
        rw [hs] at hc
        cases pr with
        | mk t r =>
          simp at hc
          exact h c (hd ▸ List.mem_cons_of_mem '[' (splitAtClose_sub rest t r hs c hc))
    · rw [if_neg hc0] at hc
      simp at hc

/-! ### The claims -/

/-- C9: for every record, configuration, environment and key-enumeration
order, `Format` returns a `nil` error: the error component of the result
is never populated (formatter.go:107 is the only return). -/
theorem C9_format_never_errors (f : TextFormatter) (env : Env) (entry : Entry)
    (iterOrder : List String) : (Format f env entry iterOrder).2 = none := rfl

/-- C8: in colored mode the Warn level renders as the literal four-byte
label `WARN` although its canonical name is `warning` (so its upper-case
form would be `WARNING`), every other level label is the upper-case of the
canonical name of the level, and `printColored` right-aligns the label to a
minimum width of five characters via the `%+5s` verb (`padLeft5`). -/
theorem C8_warn_label :
    levelTextOf .warn = "WARN"
    ∧ Level.warn.toGoString = "warning"
    ∧ decide (levelTextOf .warn = goToUpper Level.warn.toGoString) = false
    ∧ levelTextOf .panic = goToUpper Level.panic.toGoString
    ∧ levelTextOf .fatal = goToUpper Level.fatal.toGoString
    ∧ levelTextOf .error = goToUpper Level.error.toGoString
    ∧ levelTextOf .info = goToUpper Level.info.toGoString
    ∧ levelTextOf .debug = goToUpper Level.debug.toGoString
    ∧ padLeft5 (levelTextOf .warn) = " WARN"
    ∧ padLeft5 (levelTextOf .info) = " INFO"
    ∧ padLeft5 (levelTextOf .debug) = "DEBUG"
    ∧ padLeft5 (levelTextOf .error) = "ERROR"
    ∧ padLeft5 (levelTextOf .fatal) = "FATAL"
    ∧ padLeft5 (levelTextOf .panic) = "PANIC"
    ∧ (∀ l : Level, 5 ≤ (padLeft5 (levelTextOf l)).length) := by
  refine ⟨by decide, by decide, by decide, by decide, by decide, by decide, by decide,
    by decide, by decide, by decide, by decide, by decide, by decide, by decide, ?_⟩
  intro l
  cases l <;> decide

/-- C5: a string (or error-message) value is rendered by `appendKeyValue`
unquoted exactly when every character is an ASCII letter, digit, `-` or
`.`; otherwise it is rendered as the quoted, escaped literal `goQuote`
(which starts and ends with a double quote); errors render like their
message text; other values render via their default textual conversion,
unquoted; `hello-world.txt` stays bare and `hello world` is quoted.
(This is the non-colored rendering path: the colored path prints raw
`%+v` values and does not quote, see `coloredFieldsStr`.) -/
theorem C5_value_quoting :
    (∀ k s, (appendKeyValue k (.str s) = k ++ "=" ++ s ++ " " ↔ ∀ c ∈ s.data, specNoQuote c))
    ∧ (∀ k s, ¬(∀ c ∈ s.data, specNoQuote c) →
        appendKeyValue k (.str s) = k ++ "=" ++ goQuote s ++ " "
        ∧ (goQuote s).data.head? = some '"'
        ∧ (goQuote s).data.getLast? = some '"')
    ∧ (∀ k m, appendKeyValue k (.err m) = appendKeyValue k (.str m))
    ∧ (∀ k t, appendKeyValue k (.other t) = k ++ "=" ++ t ++ " ")
    ∧ appendKeyValue "f" (.str "hello-world.txt") = "f=hello-world.txt "
    ∧ appendKeyValue "f" (.str "hello world") = "f=\"hello world\" " := by
  have hquoted : ∀ k s, needsQuoting s = false →
      appendKeyValue k (.str s) = k ++ "=" ++ goQuote s ++ " " := by
    intro k s hnq
    simp [appendKeyValue, valueText, hnq]
  refine ⟨?_, ?_, fun k m => rfl, fun k t => rfl, by decide, by decide⟩
  · intro k s
    constructor
    · intro h
      by_contra hq
      have hnq : needsQuoting s = false := by
        cases hb : needsQuoting s
        · rfl
        · exact absurd ((needsQuoting_iff s).mp hb) hq
      rw [hquoted k s hnq] at h
      have hd := congrArg String.data h
      simp only [String.data_append] at hd
      exact goQuote_ne s
        (String.ext (List.append_cancel_left (List.append_cancel_right hd)))
    · intro h
      have hq : needsQuoting s = true := (needsQuoting_iff s).mpr h
      simp [appendKeyValue, valueText, hq]
  · intro k s hq
    have hnq : needsQuoting s = false := by
      cases hb : needsQuoting s
      · rfl
      · exact absurd ((needsQuoting_iff s).mp hb) hq
    exact ⟨hquoted k s hnq, rfl, goQuote_getLast s⟩

/-- Witness for C5: the quoted branch applied at the concrete value
`hello world`, whose embedded space fails the character test. -/
theorem C5_value_quoting_witness :
    appendKeyValue "f" (.str "hello world") = "f" ++ "=" ++ goQuote "hello world" ++ " " :=
  (C5_value_quoting.2.1 "f" "hello world" (by decide)).1

/-- C10: in non-colored mode a field named `prefix` is dropped: the
`range` loop of formatter.go:69 skips the key `prefix`, so it never
reaches the rendered key list, and the non-colored branch prints
`entry.Message` verbatim — the bracketed tag of the concrete record below
stays in the `msg` value and the `prefix` value `SECRET` appears nowhere
in the output. -/
theorem C10_prefix_dropped_noncolored :
    (∀ (f : TextFormatter) (iter : List String),
      decide ("prefix" ∈ establishedKeys f iter) = false)
    ∧ (Format cfgPlainNoTs envNone entryPfxField ["prefix"]).1 = "level=info msg=\"[w] hi\" \n"
    ∧ charsContain (Format cfgPlainNoTs envNone entryPfxField ["prefix"]).1 "SECRET" = false
    ∧ charsContain (Format cfgPlainNoTs envNone entryPfxField ["prefix"]).1 "msg=\"[w] hi\"" = true
    ∧ charsContain (Format cfgPlainNoTs envNone entryPfxField ["prefix"]).1 "prefix" = false := by
  refine ⟨?_, by decide, by decide, by decide, by decide⟩
  intro f iter
  apply decide_eq_false
  intro h
  exact ((mem_establishedKeys f iter "prefix").mp h).2 rfl

/-- C1 is false on the code: `Format` collects and (optionally) sorts the
key list at formatter.go:68–77 and only then calls `prefixFieldClashes`
(line 81), so on the call that first sees a user field named `time` the
output contains no `fields.time` at all, and the caller value renders
under the reserved name `time` itself (next to the reserved `time=TS`
entry produced from the record timestamp). -/
theorem C1_counterexample :
    (Format cfgPlain envNone entryTimeClash ["time"]).1 = "time=TS level=info time=x \n"
    ∧ charsContain (Format cfgPlain envNone entryTimeClash ["time"]).1 "fields.time" = false
    ∧ charsContain (Format cfgPlain envNone entryTimeClash ["time"]).1 "time=x" = true := by
  refine ⟨by decide, by decide, by decide⟩

/-- C1 amended: for each of the three reserved keys `time`, `msg` and
`level`, the collision renaming happens after the rendered key list is
assembled, so the `fields.<name>` copy is absent from the key list of the
call that performs the renaming — it is only written into the (mutated)
map, with the caller value, and the next call both enumerates and renders
it, as the closed conjunct shows on a concrete second call over a record
clashing on all three keys at once. -/
theorem C1_renaming_after_key_collection (f : TextFormatter) (entry : Entry)
    (iter iter2 : List String) (key copyKey : String) (v : Value)
    (hkey : (key, copyKey) = ("time", "fields.time")
      ∨ (key, copyKey) = ("msg", "fields.msg")
      ∨ (key, copyKey) = ("level", "fields.level"))
    (hv : lookupKey key entry.data = some v)
    (hno : copyKey ∉ iter)
    (h2 : copyKey ∈ iter2) :
    copyKey ∉ establishedKeys f iter
    ∧ lookupKey copyKey (prefixFieldClashes entry.data) = some v
    ∧ copyKey ∈ establishedKeys f iter2
    ∧ (Format cfgPlain envNone (mutateEntry entryAllClash)
        ["time", "msg", "level", "fields.time", "fields.msg", "fields.level"]).1 =
        "time=TS level=info fields.level=z fields.msg=y fields.time=x level=z msg=y time=x \n"
      := by
  have hcopy : lookupKey copyKey (prefixFieldClashes entry.data) = some v := by
    rcases hkey with hk | hk | hk <;> obtain ⟨h1, h2⟩ := Prod.ext_iff.mp hk
    · subst h1
      subst h2
      exact pfc_copy_time entry.data v hv
    · subst h1
      subst h2
      exact pfc_copy_msg entry.data v hv
    · subst h1
      subst h2
      exact pfc_copy_level entry.data v hv
  have hnp : copyKey ≠ "prefix" := by
    rcases hkey with hk | hk | hk <;> obtain ⟨h1, h2⟩ := Prod.ext_iff.mp hk <;> subst h2 <;>
      decide
  refine ⟨?_, hcopy, (mem_establishedKeys f iter2 copyKey).mpr ⟨h2, hnp⟩, by decide⟩
  intro h
  exact hno ((mem_establishedKeys f iter copyKey).mp h).1

/-- Witness for C1: the amended statement applied, for each of the three
reserved keys in turn, to the concrete record whose map stores
`time = x`, `msg = y` and `level = z`. -/
theorem C1_witness :
    ("fields.time" ∉ establishedKeys cfgPlain ["time", "msg", "level"]
      ∧ lookupKey "fields.time" (prefixFieldClashes entryAllClash.data) = some (.str "x")
      ∧ "fields.time" ∈ establishedKeys cfgPlain
          ["time", "msg", "level", "fields.time", "fields.msg", "fields.level"]
      ∧ (Format cfgPlain envNone (mutateEntry entryAllClash)
          ["time", "msg", "level", "fields.time", "fields.msg", "fields.level"]).1 =
          "time=TS level=info fields.level=z fields.msg=y fields.time=x level=z msg=y time=x \n")
    ∧ ("fields.msg" ∉ establishedKeys cfgPlain ["time", "msg", "level"]
      ∧ lookupKey "fields.msg" (prefixFieldClashes entryAllClash.data) = some (.str "y")
      ∧ "fields.msg" ∈ establishedKeys cfgPlain
          ["time", "msg", "level", "fields.time", "fields.msg", "fields.level"]
      ∧ (Format cfgPlain envNone (mutateEntry entryAllClash)
          ["time", "msg", "level", "fields.time", "fields.msg", "fields.level"]).1 =
          "time=TS level=info fields.level=z fields.msg=y fields.time=x level=z msg=y time=x \n")
    ∧ ("fields.level" ∉ establishedKeys cfgPlain ["time", "msg", "level"]
      ∧ lookupKey "fields.level" (prefixFieldClashes entryAllClash.data) = some (.str "z")
      ∧ "fields.level" ∈ establishedKeys cfgPlain
          ["time", "msg", "level", "fields.time", "fields.msg", "fields.level"]
      ∧ (Format cfgPlain envNone (mutateEntry entryAllClash)
          ["time", "msg", "level", "fields.time", "fields.msg", "fields.level"]).1 =
          "time=TS level=info fields.level=z fields.msg=y fields.time=x level=z msg=y time=x \n") :=
  ⟨C1_renaming_after_key_collection cfgPlain entryAllClash ["time", "msg", "level"]
      ["time", "msg", "level", "fields.time", "fields.msg", "fields.level"]
      "time" "fields.time" (.str "x") (by decide) (by decide) (by decide) (by decide),
    C1_renaming_after_key_collection cfgPlain entryAllClash ["time", "msg", "level"]
      ["time", "msg", "level", "fields.time", "fields.msg", "fields.level"]
      "msg" "fields.msg" (.str "y") (by decide) (by decide) (by decide) (by decide),
    C1_renaming_after_key_collection cfgPlain entryAllClash ["time", "msg", "level"]
      ["time", "msg", "level", "fields.time", "fields.msg", "fields.level"]
      "level" "fields.level" (.str "z") (by decide) (by decide) (by decide) (by decide)⟩

/-- C2 is false on the code: with a colliding `time` field the first call
renders no `fields.time` (the key list predates the renaming) while the
second call, on the mutated map, does, so the two outputs differ byte-wise
on this concrete record.  The second iteration order is a permutation of
the keys of the mutated map, i.e. a legal enumeration. -/
theorem C2_counterexample :
    List.Perm ["time", "fields.time"] (((mutateEntry entryTimeClash).data).map Prod.fst)
    ∧ (Format cfgPlain envNone entryTimeClash ["time"]).1 = "time=TS level=info time=x \n"
    ∧ (Format cfgPlain envNone (mutateEntry entryTimeClash) ["time", "fields.time"]).1 =
        "time=TS level=info fields.time=x time=x \n"
    ∧ decide ((Format cfgPlain envNone entryTimeClash ["time"]).1 =
        (Format cfgPlain envNone (mutateEntry entryTimeClash) ["time", "fields.time"]).1) =
          false := by
  refine ⟨by decide, by decide, by decide, by decide⟩

/-- C2 amended: the renamed map is a fixpoint of `prefixFieldClashes`, so
with sorting enabled (the default) every call from the second one onwards
— under any legal enumeration order of the map — yields byte-identical
output; and the renaming never produces `fields.fields.*` keys: every key
of the renamed map is an original key or one of the three `fields.<name>`
copies. -/
theorem C2_stable_from_second_call (f : TextFormatter) (env : Env) (e0 : Entry)
    (iter2 iter3 : List String)
    (hnd : ((e0.data).map Prod.fst).Nodup)
    (hs : f.disableSorting = false)
    (h2 : iter2.Perm (((mutateEntry e0).data).map Prod.fst))
    (h3 : iter3.Perm (((mutateEntry (mutateEntry e0)).data).map Prod.fst)) :
    Format f env (mutateEntry e0) iter2 = Format f env (mutateEntry (mutateEntry e0)) iter3
    ∧ (∀ k, k ∈ (prefixFieldClashes e0.data).map Prod.fst →
        k ∈ (e0.data).map Prod.fst ∨ k = "fields.time" ∨ k = "fields.msg" ∨
          k = "fields.level") := by
  have hidem : mutateEntry (mutateEntry e0) = mutateEntry e0 := by
    unfold mutateEntry
    dsimp only
    rw [pfc_idem e0.data hnd]
  constructor
  · rw [hidem] at h3 ⊢
    exact Format_congr_iter f env (mutateEntry e0)
      (establishedKeys_eq_of_perm f hs (h2.trans h3.symm))
  · exact fun k hk => pfc_keys_sub k e0.data hk

/-- Witness for C2: the second and third calls on the concrete colliding
record agree byte-wise, under two different enumeration orders. -/
theorem C2_witness :
    Format cfgPlain envNone (mutateEntry entryTimeClash) ["time", "fields.time"] =
      Format cfgPlain envNone (mutateEntry (mutateEntry entryTimeClash))
        ["fields.time", "time"] :=
  (C2_stable_from_second_call cfgPlain envNone entryTimeClash ["time", "fields.time"]
    ["fields.time", "time"] (by decide) rfl (by decide) (by decide)).1

/-- C3 is false in its determinism conjunct: with sorting disabled the Go
runtime may enumerate the same map in different orders on two calls with
identical record and configuration, and the two outputs differ byte-wise;
both orders below are permutations of the stored keys, i.e. legal
enumerations. -/
theorem C3_counterexample :
    List.Perm ["a", "b"] ((entryAB.data).map Prod.fst)
    ∧ List.Perm ["b", "a"] ((entryAB.data).map Prod.fst)
    ∧ (Format cfgPlainNoTsNoSort envNone entryAB ["a", "b"]).1 = "level=info a=1 b=2 \n"
    ∧ (Format cfgPlainNoTsNoSort envNone entryAB ["b", "a"]).1 = "level=info b=2 a=1 \n"
    ∧ decide ((Format cfgPlainNoTsNoSort envNone entryAB ["a", "b"]).1 =
        (Format cfgPlainNoTsNoSort envNone entryAB ["b", "a"]).1) = false := by
  refine ⟨by decide, by decide, by decide, by decide, by decide⟩

/-- C3 amended: for every record formatted with colors disabled the output
is exactly the non-colored template (reserved entries with their omission
conditions, the remaining fields in the established key order, the
trailing space of each `key=value ` and the trailing newline), and the
output is deterministic given record, configuration and the enumeration
order of the map; when sorting is enabled it is deterministic given record
and configuration alone (enumeration-order independent). -/
theorem C3_noncolored_template (f : TextFormatter) (env : Env) (entry : Entry)
    (iter : List String) (hc : f.disableColors = true) :
    (Format f env entry iter).1 =
      specNonColoredLine f entry (establishedKeys f iter) (resolvedTsFmt f)
        (prefixFieldClashes entry.data)
    ∧ (f.disableSorting = false → ∀ iter2, iter2.Perm iter →
        Format f env entry iter2 = Format f env entry iter) := by
  constructor
  · cases hdt : f.disableTimestamp <;> by_cases hm : entry.message = "" <;>
      simp [Format, nonColoredBody, specNonColoredLine, appendKeyValue, hc, hdt, hm]
  · intro hs iter2 hp
    exact Format_congr_iter f env entry (establishedKeys_eq_of_perm f hs hp)

/-- Witness for C3: the template equality applied to a concrete sorted
record, with the rendered bytes. -/
theorem C3_witness :
    (Format cfgPlain envNone entryBA ["b", "a"]).1 =
      specNonColoredLine cfgPlain entryBA (establishedKeys cfgPlain ["b", "a"])
        (resolvedTsFmt cfgPlain) (prefixFieldClashes entryBA.data)
    ∧ (Format cfgPlain envNone entryBA ["b", "a"]).1 = "time=TS level=info a=2 b=1 \n" :=
  ⟨(C3_noncolored_template cfgPlain envNone entryBA ["b", "a"] rfl).1, by decide⟩

/-- C4 is false in its insertion-order conjunct: the fields of the record
below were inserted as `b` then `a`, yet the enumeration order `[a, b]` is
an equally legal Go map range order (a permutation of the keys), and under
it the unsorted output renders `a` before `b`, not the insertion order. -/
theorem C4_counterexample :
    List.Perm ["a", "b"] ((entryBA.data).map Prod.fst)
    ∧ (Format cfgPlainNoTsNoSort envNone entryBA ["a", "b"]).1 = "level=info a=2 b=1 \n"
    ∧ decide ((Format cfgPlainNoTsNoSort envNone entryBA ["a", "b"]).1 =
        "level=info b=1 a=2 \n") = false := by
  refine ⟨by decide, by decide, by decide⟩

/-- C4 amended: with sorting enabled the rendered non-reserved keys are in
lexicographic (byte-wise ascending, which on UTF-8 equals code-point)
order, whatever order the map was enumerated in — the spec example
`{b: 1, a: 2}` renders `a=2 b=1`; with sorting disabled the keys appear in
the enumeration order of the map (with `prefix` dropped), which Go leaves
unspecified and which need not be the insertion order. -/
theorem C4_key_order (f : TextFormatter) (iter : List String) :
    (f.disableSorting = false →
      List.Sorted (fun a b : String => strLe a b = true) (establishedKeys f iter)
      ∧ (establishedKeys f iter).Perm (iter.filter fun k => k ≠ "prefix"))
    ∧ (f.disableSorting = true → establishedKeys f iter = iter.filter fun k => k ≠ "prefix")
    ∧ (Format cfgPlainNoTs envNone entryBA ["b", "a"]).1 = "level=info a=2 b=1 \n" := by
  refine ⟨?_, ?_, by decide⟩
  · intro hs
    unfold establishedKeys
    rw [hs]
    simp only [Bool.not_false, if_true]
    exact ⟨sortStrings_sorted _, List.perm_insertionSort _ _⟩
  · intro hs
    unfold establishedKeys
    rw [hs]
    simp

/-- Witness for C4: the sorted-case conjunct applied to the concrete
enumeration `[b, a]`. -/
theorem C4_witness :
    List.Sorted (fun a b : String => strLe a b = true) (establishedKeys cfgPlain ["b", "a"])
    ∧ (establishedKeys cfgPlain ["b", "a"]).Perm (["b", "a"].filter fun k => k ≠ "prefix") :=
  (C4_key_order cfgPlain ["b", "a"]).1 rfl

/-- C6 is false in its message clause: `extractPrefix` passes the
remainder through `strings.TrimSpace`, which strips trailing whitespace
too, so for the message `[worker] hi ` the displayed message is `hi`, not
the `hi ` that stripping only the leading bracket and the whitespace
following it would produce. -/
theorem C6_counterexample :
    coloredPrefixMessage [] "[worker] hi " =
      (" " ++ ansiCyan ++ "worker" ++ ":" ++ ansiReset, "hi")
    ∧ decide ((coloredPrefixMessage [] "[worker] hi ").2 = "hi ") = false := by
  refine ⟨by decide, by decide⟩

/-- C6 amended: in colored mode an explicit `prefix` field always renders
as the prefix tag and leaves the message untouched; with no `prefix` field
and a message starting with a nonempty bracketed tag, the tag renders as
the prefix and the displayed message is the remainder with surrounding
whitespace trimmed on both sides (`strings.TrimSpace`); when neither
source yields a (nonempty) prefix, no tag is rendered and the message is
untouched.  `[worker] started job` yields tag `worker` and message
`started job`, and an explicit field wins over the embedded tag. -/
theorem C6_prefix_selection :
    (∀ (data : Fields) (msg : String) (v : Value), lookupKey "prefix" data = some v →
      coloredPrefixMessage data msg = (" " ++ ansiCyan ++ sprintValue v ++ ":" ++ ansiReset, msg))
    ∧ (∀ (data : Fields) (tag rest : String), lookupKey "prefix" data = none →
        tag ≠ "" → (∀ c ∈ tag.data, c ≠ ']') → (∀ c ∈ tag.data, c ≠ '\n') →
        coloredPrefixMessage data ("[" ++ tag ++ "]" ++ rest) =
          (" " ++ ansiCyan ++ tag ++ ":" ++ ansiReset, goTrimSpace rest))
    ∧ (∀ (data : Fields) (msg : String), lookupKey "prefix" data = none →
        (extractPrefixTag msg).1 = "" → coloredPrefixMessage data msg = ("", msg))
    ∧ coloredPrefixMessage [] "[worker] started job" =
        (" " ++ ansiCyan ++ "worker" ++ ":" ++ ansiReset, "started job")
    ∧ coloredPrefixMessage [("prefix", .str "P")] "[worker] started job" =
        (" " ++ ansiCyan ++ "P" ++ ":" ++ ansiReset, "[worker] started job") := by
  refine ⟨?_, ?_, ?_, by decide, by decide⟩
  · intro data msg v hv
    unfold coloredPrefixMessage
    rw [hv]
  · intro data tag rest hn ht h1 h2
    have hlen : 0 < tag.length := by
      cases htag : tag.data with
      | nil => exact absurd (by rw [← strMkData tag, htag]) ht
      | cons c r =>
        show 0 < tag.data.length
        rw [htag]
        simp
    unfold coloredPrefixMessage
    rw [hn, extractPrefixTag_spec tag rest h1 h2]
    simp only [if_pos hlen]
  · intro data msg hn h1
    unfold coloredPrefixMessage
    rw [hn]
    simp only [h1]
    simp

/-- Witness for C6: the extraction clause applied to tag `worker` and
remainder ` started job`. -/
theorem C6_witness :
    coloredPrefixMessage [] ("[" ++ "worker" ++ "]" ++ " started job") =
      (" " ++ ansiCyan ++ "worker" ++ ":" ++ ansiReset, goTrimSpace " started job") :=
  C6_prefix_selection.2.1 [] "worker" " started job" rfl (by decide) (by decide) (by decide)

/-- Witness for C9: the error component on a concrete call. -/
theorem C9_witness : (Format cfgPlain envNone entryTimeClash ["time"]).2 = none :=
  C9_format_never_errors cfgPlain envNone entryTimeClash ["time"]

/-- Witness for C8: the label width bound at the Warn level. -/
theorem C8_witness : 5 ≤ (padLeft5 (levelTextOf .warn)).length :=
  C8_warn_label.2.2.2.2.2.2.2.2.2.2.2.2.2.2 .warn

/-- Witness for C10: the key `prefix` is absent from a concrete key list. -/
theorem C10_witness :
    decide ("prefix" ∈ establishedKeys cfgPlain ["prefix", "a"]) = false :=
  C10_prefix_dropped_noncolored.1 cfgPlain ["prefix", "a"]

/-- C7: with `indentMultilineMessage` set and a message containing a
newline, `printColored` inserts after every newline of the message exactly
as many spaces as the visible width of the rendered line header: the bytes
the header `Fprintf` wrote minus the bytes of the ANSI color-control
sequences in it (including the two extra sequences of the prefix tag when
one was rendered) — which this theorem equates with the byte length of the
header after stripping its ANSI escape sequences (`stripAnsi`).  The
hypotheses say the dynamic header ingredients (rendered timestamp, debug
diagnostic, message, prefix-field value) contain no ESC byte of their own,
so that `visible` is well defined. -/
theorem C7_multiline_indent (f : TextFormatter) (env : Env) (entry : Entry)
    (keys : List String) (tsFmt : String)
    (hind : f.indentMultilineMessage = true)
    (hnl : (coloredPrefixMessage entry.data entry.message).2.data.contains '\n' = true)
    (hts : noEscStr (entry.time.render tsFmt))
    (hdbg : noEscStr (debugInfStr env entry.level))
    (hmsg : noEscStr entry.message)
    (hpv : ∀ v, lookupKey "prefix" entry.data = some v → noEscStr (sprintValue v)) :
    printColored f env entry keys tsFmt =
      coloredHeader f env entry tsFmt (levelColorOf entry.level) (levelTextOf entry.level)
        (debugInfStr env entry.level) (coloredPrefixMessage entry.data entry.message).1
      ++ spacePad f (replaceNewlines (coloredPrefixMessage entry.data entry.message).2
          (goLen (stripAnsi (coloredHeader f env entry tsFmt (levelColorOf entry.level)
            (levelTextOf entry.level) (debugInfStr env entry.level)
            (coloredPrefixMessage entry.data entry.message).1))))
      ++ coloredFieldsStr (levelColorOf entry.level) keys entry.data := by
  have hp : (coloredPrefixMessage entry.data entry.message).1 = "" ∨
      ∃ t, (coloredPrefixMessage entry.data entry.message).1 =
        " " ++ ansiCyan ++ t ++ ":" ++ ansiReset ∧ noEscStr t := by
    unfold coloredPrefixMessage
    cases hl : lookupKey "prefix" entry.data with
    | some v =>
      right
      exact ⟨sprintValue v, rfl, hpv v hl⟩
    | none =>
      dsimp only
      by_cases hlen : 0 < (extractPrefixTag entry.message).1.length
      · rw [if_pos hlen]
        right
        exact ⟨(extractPrefixTag entry.message).1, rfl, extractTag_noEsc entry.message hmsg⟩
      · rw [if_neg hlen]
        left
        rfl
  have hkey := indentPad_eq_visible f env entry tsFmt entry.level (levelTextOf entry.level)
    (debugInfStr env entry.level) (coloredPrefixMessage entry.data entry.message).1
    (noEsc_padLevelText entry.level) hdbg hts hp
  unfold printColored
  rw [hind]
  simp only [Bool.true_and, hnl, if_true]
  rw [hkey]

/-- Witness for C7: the concrete two-line message `ab\ncd` at Info level
with forced colors and no timestamp; the visible header is 7 bytes wide
(one space, the five-character label ` INFO`, one trailing space), so the
second line is indented by exactly 7 spaces. -/
theorem C7_witness :
    printColored cfgColorIndent envNone entryMultiline [] "ts" =
      "\x1b[0;90m\x1b[0m \x1b[0;32m INFO\x1b[0m ab\n       cd" := by
  have h := C7_multiline_indent cfgColorIndent envNone entryMultiline [] "ts" rfl (by decide)
    (by decide) (by decide) (by decide) (fun v hv => Option.noConfusion hv)
  rw [h]
  decide

end Prefixed




